import Mathlib

/-!
# Verification of the Vestas PDF inspection-report extractor

Shallow embedding of the inspection-item extraction pipeline of
`classes/vestas_pdf_extractor 1.py` (functions `extract_inspection_table` and
`calculate_compliance_ratio`) and of the header-metadata extraction shared by
`classes/vestas_report.py` (`get_header_informations`) and `PDF_class.py`
(`_get_header_informations`).

Strings are modelled as `List Char` internally (`Str`), with `String` at the
data-model boundary.  A document is modelled by the two inputs the extractor
actually consumes from the PDF library: the text lines of all pages (the pages'
texts split on newlines, concatenated in page order) and the flattened list of
table rows (rows of nullable string cells, in page/table order).

Python semantics captured explicitly:
* the function-local variable `status` that survives across loop iterations and
  across the text pass, the table pass and the final flush is modelled as the
  state field `statusVar : Option Str` (`none` = never assigned, used through
  `status if 'status' in locals() else ""`);
* Python truthiness of optional strings (`if comment:`) is `optTruthy`;
* an uncaught exception (`None.endswith` in the table pass) makes the whole
  extraction return `none`;
* regex behaviour is translated operationally: the item-line pattern
  `^(\d+\.\d+)\s+(.+?)(?:\s*(OK|NOT OK|NOK|N/A|Not Applicable)\s*)?$` is the
  function `parseItemLine` (lazy group 2 means the trailing-status split is
  tried at the earliest position; at a fixed position the first alternative
  that fits wins), and `re.search(r'(OK|NOT OK|NOK|N/A|Not Applicable)$', l)`
  (leftmost match position, i.e. the longest token suffix) is `suffixStatus`.
-/

/-- Character lists standing for Python `str` values. -/
abbrev Str := List Char

/-- Whitespace test matching Python's `str.strip` / regex `\s`
(space, tab, newline, carriage return, vertical tab, form feed). -/
def isWs (c : Char) : Bool :=
  c = ' ' || c = '\t' || c = '\n' || c = '\r' || c = '\x0b' || c = '\x0c'

/-- Python `str.strip()`: drop whitespace from both ends. -/
def stripL (l : Str) : Str :=
  ((l.dropWhile isWs).reverse.dropWhile isWs).reverse

/-- Python `str.upper()` (applied only to the ASCII status tokens). -/
def upperL (l : Str) : Str := l.map Char.toUpper

/-- Python `in` on strings: contiguous-substring test. -/
def isInfixL (pat : Str) : Str → Bool
  | [] => pat.isEmpty
  | c :: cs => pat.isPrefixOf (c :: cs) || isInfixL pat cs

/-- Python truthiness of an optional string (`None` and `""` are falsy). -/
def optTruthy (o : Option Str) : Bool :=
  match o with
  | none => false
  | some s => !s.isEmpty

/-- The status-token alternation, in source order
`["OK", "NOT OK", "NOK", "N/A", "Not Applicable"]`. -/
def statusTokens : List Str :=
  [['O','K'], ['N','O','T',' ','O','K'], ['N','O','K'], ['N','/','A'],
   ['N','o','t',' ','A','p','p','l','i','c','a','b','l','e']]

/-- The tokens ordered by decreasing length: `re.search(r'(TOK...)$', line)`
matches at the leftmost position, i.e. picks the longest token that is a
suffix of the line. -/
def statusTokensByLen : List Str :=
  [['N','o','t',' ','A','p','p','l','i','c','a','b','l','e'],
   ['N','O','T',' ','O','K'], ['N','O','K'], ['N','/','A'], ['O','K']]

/-- Model of `re.match(r'^\d+\.\d+', line)`: the line starts with digits, a dot and
digits (the `inspection_line_pattern` of the source). -/
def matchesInspStart (l : Str) : Bool :=
  let ds := l.takeWhile Char.isDigit
  !ds.isEmpty &&
    (match l.drop ds.length with
     | '.' :: r2 => !(r2.takeWhile Char.isDigit).isEmpty
     | _ => false)

/-- Capture of the leading `(\d+\.\d+)` group together with the remainder of
the line.  Digits are not whitespace, so the greedy `\d+` runs are exact. -/
def parseNumPrefix (l : Str) : Option (Str × Str) :=
  let ds := l.takeWhile Char.isDigit
  if ds.isEmpty then none
  else
    match l.drop ds.length with
    | '.' :: r2 =>
      let ds2 := r2.takeWhile Char.isDigit
      if ds2.isEmpty then none
      else some (ds ++ '.' :: ds2, r2.drop ds2.length)
    | _ => none

/-- The token test of the optional group `(?:\s*(TOK)\s*)?$` at a split point:
after the maximal whitespace run, the first alternative (in source order) that
is a prefix of the rest and is followed by whitespace only. -/
def findTokHere (rest : Str) : Option Str :=
  let p := rest.dropWhile isWs
  statusTokens.find? (fun t => t.isPrefixOf p && (p.drop t.length).all isWs)

/-- The lazy tail `(.+?)(?:\s*(TOK)\s*)?$` of the item-line regex: group 2
grows from the shortest prefix until the optional status group (or the end of
the line) fits.  `g2rev` is the reversed group-2 prefix accumulated so far. -/
def lazyDescSplit (g2rev : Str) (rest : Str) : Str × Option Str :=
  match rest with
  | [] => (g2rev.reverse, none)
  | c :: cs =>
    match findTokHere (c :: cs) with
    | some t => (g2rev.reverse, some t)
    | none => lazyDescSplit (c :: g2rev) cs

/-- Model of `re.match(item_number_pattern, line)` for
`^(\d+\.\d+)\s+(.+?)(?:\s*(OK|NOT OK|NOK|N/A|Not Applicable)\s*)?$`:
returns the number (group 1), the raw description (group 2) and the optional
status token (group 3).  When the line ends directly after the whitespace run,
`\s+` backtracks one character so that `.+?` can consume it. -/
def parseItemLine (l : Str) : Option (Str × Str × Option Str) :=
  match parseNumPrefix l with
  | none => none
  | some (g1, r0) =>
    let ws := r0.takeWhile isWs
    if ws.isEmpty then none
    else
      match r0.drop ws.length with
      | [] =>
        if 2 ≤ ws.length then some (g1, ws.drop (ws.length - 1), none) else none
      | c :: cs =>
        let (g2, tok) := lazyDescSplit [c] cs
        some (g1, g2, tok)

/-- Model of `re.search(r'(OK|NOT OK|NOK|N/A|Not Applicable)$', line)` on a
continuation line: the longest status token that is a suffix; returns the text
before the match and the token. -/
def suffixStatus (l : Str) : Option (Str × Str) :=
  match statusTokensByLen.find? (fun t => t.isSuffixOf l) with
  | some t => some (l.take (l.length - t.length), t)
  | none => none

/-- The repeated `endswith` loop of the source
(`for pattern in ["OK", "NOT OK", "NOK", "N/A", "Not Applicable"]: if
text.endswith(pattern): text = text[:-len(pattern)].strip(); status =
pattern.upper(); break`): tokens are tried in source order, the first suffix
match is stripped; the returned status is already upper-cased. -/
def stripStatusEnd (l : Str) : Str × Option Str :=
  match statusTokens.find? (fun t => t.isSuffixOf l) with
  | some t => (stripL (l.take (l.length - t.length)), some (upperL t))
  | none => (l, none)

/-- Model of `re.search(r'(OK|NOT OK|NOK|N/A|Not Applicable)', cell)` in a table cell:
unanchored scan, leftmost position first, alternatives in source order. -/
def searchTok : Str → Option Str
  | [] => none
  | c :: cs =>
    match statusTokens.find? (fun t => t.isPrefixOf (c :: cs)) with
    | some t => some t
    | none => searchTok cs

/-- Python `description.split(":", 1)` when `":" in description`:
the part before the first colon and the part after it. -/
def splitColon (l : Str) : Str × Str :=
  (l.takeWhile (· ≠ ':'), (l.dropWhile (· ≠ ':')).drop 1)

/-- One committed inspection item: the dict
`{'item_number': ..., 'description': ..., 'comment': ..., 'status': ...}`
appended to `inspection_items`. -/
structure InspectionItem where
  item_number : String
  description : String
  comment : Option String
  status : String
deriving DecidableEq, Repr

/-- The mutable locals of `extract_inspection_table`:
`inspection_items`, `items_seen` (a dict used only for membership),
`current_item_number` / `current_description` / `current_comment`
(`curDesc` is only read while `curNum` is set, exactly as in the source where
the three are always assigned together), and the loop-escaping local `status`
(`none` = `'status' not in locals()`). -/
structure PState where
  items : List InspectionItem
  seen : List Str
  curNum : Option Str
  curDesc : Str
  curComment : Option Str
  statusVar : Option Str
deriving DecidableEq, Repr

def initState : PState :=
  { items := [], seen := [], curNum := none, curDesc := [],
    curComment := none, statusVar := none }

/-- The input actually consumed by `extract_inspection_table`: the text lines
of all pages (each page's `extract_text()` split on `'\n'`, in page order) and
the flattened rows of all `extract_tables()` grids (rows of nullable cells,
in page and table order). -/
structure Document where
  textLines : List String
  tableRows : List (List (Option String))

def mkS : Str → String := String.mk

/-- Build the committed item dict from the current draft fields and the
`status if 'status' in locals() else ""` expression. -/
def commitOf (num : Str) (desc : Str) (comment : Option Str) (status : Str) :
    InspectionItem :=
  { item_number := mkS num, description := mkS desc,
    comment := comment.map mkS, status := mkS status }

/-- Lines 154-162 of the source: for every already-committed item with this
`item_number`, append the new description (and the new comment, if truthy) to
the committed entry in place.  The loop has no `break`, so every matching
entry is updated. -/
def appendToMatching (num : Str) (desc : Str) (comment : Option Str) :
    List InspectionItem → List InspectionItem
  | [] => []
  | it :: rest =>
    (if it.item_number = mkS num then
      { it with
        description := it.description ++ " " ++ mkS desc,
        comment :=
          if optTruthy comment then
            if optTruthy (it.comment.map String.data) then
              some ((it.comment.getD "") ++ " " ++ mkS (comment.getD []))
            else comment.map mkS
          else it.comment }
    else it) :: appendToMatching num desc comment rest

/-- Lines 118-146: post-processing of a freshly matched item line — strip the
raw group-2 text, upper-case the group-3 token (else try the `endswith` loop),
then apply the colon rule with its status-from-comment fallback (guarded by
`and not status`).  Returns (description, comment, status). -/
def processNewItemFields (g2 : Str) (tok : Option Str) :
    Str × Option Str × Str :=
  let description := stripL g2
  let status := match tok with | some t => upperL t | none => []
  let (description, status) :=
    if status.isEmpty then
      match stripStatusEnd description with
      | (d, some s) => (d, s)
      | (d, none) => (d, [])
    else (description, status)
  if description.contains ':' then
    let (before, after) := splitColon description
    let description := stripL before
    let commentText := stripL after
    if commentText.isEmpty then (description, none, status)
    else if status.isEmpty then
      match stripStatusEnd commentText with
      | (c, some s) => (description, some c, s)
      | (c, none) => (description, some c, status)
    else (description, some commentText, status)
  else (description, none, status)

/-- Lines 85-102: a line that continues the open item: a trailing status
token (if any) updates the `status` local, the remaining text is appended to
the open comment if one exists, else to the open description. -/
def appendContinuation (st : PState) (line : Str) : PState :=
  match suffixStatus line with
  | some (pre, t) =>
    let additional := stripL pre
    let st := { st with statusVar := some (upperL t) }
    if optTruthy st.curComment then
      { st with curComment := some (st.curComment.getD [] ++ ' ' :: additional) }
    else { st with curDesc := st.curDesc ++ ' ' :: additional }
  | none =>
    if optTruthy st.curComment then
      { st with curComment := some (st.curComment.getD [] ++ ' ' :: line) }
    else { st with curDesc := st.curDesc ++ ' ' :: line }

/-- Lines 108-116: before starting a new item, commit the open one if its
number has not been committed yet. -/
def commitCurrent (st : PState) : PState :=
  match st.curNum with
  | some c =>
    if c ∈ st.seen then st
    else
      { st with
          seen := st.seen ++ [c],
          items := st.items ++
            [commitOf c st.curDesc st.curComment (st.statusVar.getD [])] }
  | none => st

/-- Lines 118-171 after the commit of the previous item: open the draft for
the matched item line; append to all committed entries when the number was
already seen, commit immediately when a status was found, else leave the
draft open. -/
def openNewItem (st : PState) (num : Str) (g2 : Str) (tok : Option Str) :
    PState :=
  let (description, comment, status) := processNewItemFields g2 tok
  let st := { st with
                curNum := some num, curDesc := description,
                curComment := comment, statusVar := some status }
  if num ∈ st.seen then
    { st with items := appendToMatching num description comment st.items }
  else if !status.isEmpty then
    { st with
        seen := st.seen ++ [num],
        items := st.items ++ [commitOf num description comment status] }
  else st

/-- One iteration of the text-pass loop (lines 75-171 of the source). -/
def processLine (st : PState) (line : Str) : PState :=
  if (stripL line).isEmpty then st
  else if isInfixL "Service Inspection Form".data line ||
          isInfixL "0. DMS:".data line then st
  else if st.curNum.isSome && !matchesInspStart line then
    appendContinuation st line
  else
    match parseItemLine line with
    | none => st
    | some (num, g2, tok) => openNewItem (commitCurrent st) num g2 tok

/-- Python truthiness of a nullable cell (`if not row[0]` / `if row[i]`). -/
def cellTruthy (c : Option String) : Bool :=
  match c with
  | none => false
  | some s => !s.data.isEmpty

/-- Lines 216-223: scan the cells from index 2 on; the first truthy cell
containing a status token (unanchored search) provides the status. -/
def findCellStatus : List (Option String) → Option Str
  | [] => none
  | c :: cs =>
    if cellTruthy c then
      match searchTok (c.getD "").data with
      | some t => some (upperL t)
      | none => findCellStatus cs
    else findCellStatus cs

/-- Lines 189-223 of the table pass: description, comment and status computed
from the second cell and the later cells of a matched row.  Returns `none`
when the Python code raises: with a `None` second cell, the colon check
`if description and ":" in description` is skipped but
`description.endswith(pattern)` on line 211 is reached with `description =
None` and raises `AttributeError`.  The transient `status` assignment inside
the comment block (line 204) is unconditionally overwritten by `status = ""`
on line 208 before any read, so only the final value is recorded. -/
def tableRowFields (descCell : Option String)
    (laterCells : List (Option String)) : Option (Str × Option Str × Str) :=
  -- colon block, lines 191-205
  let (description, comment) :=
    match descCell with
    | some d =>
      if !d.data.isEmpty && d.data.contains ':' then
        let (before, after) := splitColon d.data
        let description := stripL before
        let commentText := stripL after
        if commentText.isEmpty then (some description, none)
        else
          match stripStatusEnd commentText with
          | (c, some _) => (some description, some c)
          | (c, none) => (some description, some c)
      else (some d.data, none)
    | none => (none, none)
  -- line 208: status = ""
  match description with
  | none => none  -- AttributeError: 'NoneType' object has no attribute 'endswith'
  | some d =>
    let (description, status) :=
      match stripStatusEnd d with
      | (d2, some s) => (d2, s)
      | (d2, none) => (d2, [])
    let status :=
      if status.isEmpty then (findCellStatus laterCells).getD []
      else status
    some (description, comment, status)

/-- One iteration of the table-pass loop (lines 180-233): skip short or
number-less rows, compute the fields, record the `status` local, and commit
the row as a new item unless its number is already in `items_seen`;
`none` propagates the `AttributeError` of `tableRowFields`. -/
def processRow (st : PState) (row : List (Option String)) : Option PState :=
  match row with
  | [] => some st
  | c0 :: rest =>
    if row.length < 2 || !cellTruthy c0 then some st
    else
      let firstCell := stripL (c0.getD "").data
      match parseNumPrefix firstCell with
      | none => some st
      | some (_, restNum) =>
        if !restNum.isEmpty then some st  -- `^\d+\.\d+$` must match the whole cell
        else
          let num := firstCell
          match tableRowFields (rest.head?.getD none) (rest.drop 1) with
          | none => none
          | some (description, comment, status) =>
            let st := { st with statusVar := some status }
            if num ∈ st.seen then some st
            else
              some { st with
                       seen := st.seen ++ [num],
                       items := st.items ++
                         [commitOf num description comment status] }

/-- The text pass: lines of all pages folded through `processLine`. -/
def textPhase (lines : List String) : PState :=
  lines.foldl (fun st l => processLine st l.data) initState

/-- The table pass: all table rows folded through `processRow`; an exception
aborts the whole extraction. -/
def tablePhase (st : PState) : List (List (Option String)) → Option PState
  | [] => some st
  | r :: rs =>
    match processRow st r with
    | none => none
    | some st' => tablePhase st' rs

/-- The end-of-input flush (lines 235-243): a still-open item whose number was
never committed is appended, with the last value of the `status` local. -/
def flushEnd (st : PState) : PState :=
  match st.curNum with
  | some c =>
    if c ∈ st.seen then st
    else
      { st with
          seen := st.seen ++ [c],
          items := st.items ++
            [commitOf c st.curDesc st.curComment (st.statusVar.getD [])] }
  | none => st

/-- The function `extract_inspection_table`: text pass, then table pass, then flush;
`none` models an uncaught exception. -/
def extract_inspection_table (doc : Document) : Option (List InspectionItem) :=
  match tablePhase (textPhase doc.textLines) doc.tableRows with
  | none => none
  | some st => some (flushEnd st).items

/-- The function `calculate_compliance_ratio` (lines 248-260): `(ok_items, total_items,
ratio)` with the ratio in exact rational arithmetic in place of Python float
division. -/
def calculate_compliance_ratio (inspection_items : List InspectionItem) :
    Nat × Nat × ℚ :=
  if inspection_items.isEmpty then (0, 0, 0)
  else
    let items_with_status :=
      inspection_items.filter (fun it => !it.status.data.isEmpty)
    let total_items := items_with_status.length
    let ok_items :=
      (items_with_status.filter (fun it => it.status == "OK")).length
    let ratio : ℚ :=
      if 0 < total_items then ((ok_items : ℚ) / (total_items : ℚ)) * 100 else 0
    (ok_items, total_items, ratio)

/-! ## Header-metadata extraction (`get_header_informations`)

`Vestas_Report.get_header_informations` (classes/vestas_report.py, lines
30-57) and `PDF._get_header_informations` (PDF_class.py, lines 19-44) run the
same regex lookups over the first page's text and build the same dict; they
are modelled once.  `re.search` is modelled as the scan for the leftmost
position where the whole pattern matches; the quantifiers `\s*` and the
character classes are matched greedily (the only divergence from the regex
engine is backtracking of `\s*` into a character-class group when the label
is followed by whitespace only, which affects no claim). -/

/-- A header value: a plain string, or the list of address lines. -/
inductive HeaderValue where
  | str : String → HeaderValue
  | strList : List String → HeaderValue
deriving DecidableEq, Repr

/-- Leftmost-position scan of `re.search`: the first position whose suffix is
accepted by the pattern matcher `f`. -/
def searchPos (f : Str → Option α) : Str → Option α
  | [] => f []
  | c :: cs =>
    match f (c :: cs) with
    | some r => some r
    | none => searchPos f cs

/-- Matcher for `LIT\s*(CLASS+)` at the current position: the literal label,
the maximal whitespace run, then a maximal non-empty run of class characters
as group 1. -/
def matchLitWsClass (lit : Str) (cls : Char → Bool) (t : Str) : Option Str :=
  if lit.isPrefixOf t then
    let r := (t.drop lit.length).dropWhile isWs
    let g := r.takeWhile cls
    if g.isEmpty then none else some g
  else none

/-- The text before the first occurrence of `pat`, if `pat` occurs. -/
def breakOnInfix (pat : Str) : Str → Option Str
  | [] => if pat.isEmpty then some [] else none
  | c :: cs =>
    if pat.isPrefixOf (c :: cs) then some []
    else (breakOnInfix pat cs).map (c :: ·)

/-- Python `str.split('\n')`. -/
def splitNL : Str → List Str
  | [] => [[]]
  | c :: cs =>
    if c = '\n' then [] :: splitNL cs
    else
      match splitNL cs with
      | [] => [[c]]
      | h :: t => (c :: h) :: t

/-- Matcher for the DOTALL pattern `Customer's Address:\s*(.*?)Site's Address:`:
after the label and the whitespace run, the lazy group stops at the first
occurrence of the closing label.  The address value is the group split on
newlines, each line stripped, empty lines dropped. -/
def matchCustomerAddress (t : Str) : Option (List String) :=
  let lbl := "Customer's Address:".data
  if lbl.isPrefixOf t then
    let r := (t.drop lbl.length).dropWhile isWs
    match breakOnInfix "Site's Address:".data r with
    | some pre =>
      some (((splitNL pre).map stripL).filter (fun l => !l.isEmpty) |>.map mkS)
    | none => none
  else none

/-- The class `\w` of the patterns `[\w\d]+` (ASCII view): letters, digits, underscore. -/
def isWordChar (c : Char) : Bool := c.isAlphanum || c = '_'

/-- The date classes `[\d\.]+` and `[\d\.\s:]+`. -/
def isDateChar (c : Char) : Bool := c.isDigit || c = '.'

def isDateTimeChar (c : Char) : Bool := c.isDigit || c = '.' || isWs c || c = ':'

/-- The dict built by `get_header_informations` / `_get_header_informations`,
with the key/value pairs in source order.  The local `end_date` (matched from
`r'End Date:\s*([\d\.]+)'`) is computed by both source functions but never
added to the returned dict. -/
def get_header_informations (text : String) : List (String × Option HeaderValue) :=
  let t := text.data
  let turbine_number :=
    searchPos (matchLitWsClass "Turbine No./Id:".data Char.isDigit) t
  let service_order :=
    searchPos (matchLitWsClass "Service Order:".data Char.isDigit) t
  let pad_no :=
    (searchPos (matchLitWsClass "PAD No.".data (· ≠ '\n')) t).map stripL
  let turbine_type :=
    searchPos (matchLitWsClass "Turbine Type:".data isWordChar) t
  let start_date :=
    searchPos (matchLitWsClass "Start Date:".data isDateChar) t
  let date_and_time_of_receipt :=
    (searchPos (matchLitWsClass "Date & Time of Receipt".data isDateTimeChar) t).map stripL
  let reason_for_call_out :=
    searchPos (matchLitWsClass "Reason for Call Out:".data (· ≠ '\n')) t
  let customer_address := searchPos matchCustomerAddress t
  [("turbine_number", (turbine_number.map mkS).map HeaderValue.str),
   ("service_order", (service_order.map mkS).map HeaderValue.str),
   ("pad_no", (pad_no.map mkS).map HeaderValue.str),
   ("turbine_type", (turbine_type.map mkS).map HeaderValue.str),
   ("start_date", (start_date.map mkS).map HeaderValue.str),
   ("customer_address", customer_address.map HeaderValue.strList),
   ("date_and_time_of_receipt", (date_and_time_of_receipt.map mkS).map HeaderValue.str),
   ("reason_for_call_out", (reason_for_call_out.map mkS).map HeaderValue.str)]

/-! ## Proof-support definitions -/

/-- The item numbers of the committed items, in output order. -/
def itemKeys (items : List InspectionItem) : List String :=
  items.map (·.item_number)

/-- The invariant tying the output collection to the `items_seen` dict: the
committed item numbers are pairwise distinct and every one was recorded in
`items_seen`. -/
def SeenInv (items : List InspectionItem) (seen : List Str) : Prop :=
  (itemKeys items).Nodup ∧ itemKeys items ⊆ seen.map mkS

/-- The items the end-of-input flush appends (one, or none). -/
def flushItemsOf (st : PState) : List InspectionItem :=
  match st.curNum with
  | some c =>
    if c ∈ st.seen then []
    else [commitOf c st.curDesc st.curComment (st.statusVar.getD [])]
  | none => []

/-! ## Helper lemmas -/

lemma mkS_injective : Function.Injective mkS := by
  intro a b h
  unfold mkS at h
  injection h

lemma itemKeys_appendToMatching (num d : Str) (c : Option Str)
    (items : List InspectionItem) :
    itemKeys (appendToMatching num d c items) = itemKeys items := by
  induction items with
  | nil => rfl
  | cons it rest ih =>
    simp only [appendToMatching, itemKeys, List.map_cons] at *
    rw [ih]
    congr 1
    split <;> rfl

lemma seenInv_commit (items : List InspectionItem) (seen : List Str)
    (num d : Str) (c : Option Str) (s : Str)
    (h : SeenInv items seen) (hnum : num ∉ seen) :
    SeenInv (items ++ [commitOf num d c s]) (seen ++ [num]) := by
  obtain ⟨h1, h2⟩ := h
  have hmem : mkS num ∉ seen.map mkS := by
    simp only [List.mem_map, not_exists, not_and]
    intro a ha hEq
    exact hnum (mkS_injective hEq ▸ ha)
  constructor
  · simp only [itemKeys, List.map_append, List.map_cons, List.map_nil, commitOf]
    rw [List.nodup_append]
    refine ⟨h1, List.nodup_singleton _, ?_⟩
    rw [List.disjoint_singleton]
    intro hc
    exact hmem (h2 hc)
  · simp only [itemKeys, List.map_append, List.map_cons, List.map_nil, commitOf]
    intro a ha
    rcases List.mem_append.mp ha with ha | ha
    · exact List.mem_append.mpr (Or.inl (h2 ha))
    · simp only [List.mem_singleton] at ha
      subst ha
      exact List.mem_append.mpr (Or.inr (by simp))

lemma appendContinuation_fields (st : PState) (line : Str) :
    (appendContinuation st line).items = st.items ∧
    (appendContinuation st line).seen = st.seen ∧
    (appendContinuation st line).curNum = st.curNum := by
  unfold appendContinuation
  cases hss : suffixStatus line with
  | none =>
    dsimp only
    by_cases hc : optTruthy st.curComment <;> simp [hc]
  | some pt =>
    obtain ⟨pre, t⟩ := pt
    dsimp only
    by_cases hc : optTruthy st.curComment <;> simp [hc]

lemma commitCurrent_seenInv (st : PState) (h : SeenInv st.items st.seen) :
    SeenInv (commitCurrent st).items (commitCurrent st).seen := by
  unfold commitCurrent
  cases hc : st.curNum with
  | none => exact h
  | some c =>
    dsimp only
    split
    · exact h
    · exact seenInv_commit _ _ _ _ _ _ h (by assumption)

lemma openNewItem_seenInv (st : PState) (num g2 : Str) (tok : Option Str)
    (h : SeenInv st.items st.seen) :
    SeenInv (openNewItem st num g2 tok).items (openNewItem st num g2 tok).seen := by
  unfold openNewItem
  rcases hp : processNewItemFields g2 tok with ⟨d, c, s⟩
  dsimp only
  split
  · constructor
    · rw [itemKeys_appendToMatching]
      exact h.1
    · rw [itemKeys_appendToMatching]
      exact h.2
  · split
    · exact seenInv_commit _ _ _ _ _ _ h (by assumption)
    · exact h

lemma processLine_seenInv (st : PState) (line : Str)
    (h : SeenInv st.items st.seen) :
    SeenInv (processLine st line).items (processLine st line).seen := by
  unfold processLine
  split
  · exact h
  split
  · exact h
  split
  · obtain ⟨h1, h2, _⟩ := appendContinuation_fields st line
    rw [h1, h2]
    exact h
  · cases hp : parseItemLine line with
    | none => exact h
    | some r =>
      obtain ⟨num, g2, tok⟩ := r
      exact openNewItem_seenInv _ _ _ _ (commitCurrent_seenInv st h)

lemma foldl_processLine_seenInv (lines : List String) (st : PState)
    (h : SeenInv st.items st.seen) :
    SeenInv (lines.foldl (fun st l => processLine st l.data) st).items
      (lines.foldl (fun st l => processLine st l.data) st).seen := by
  induction lines generalizing st with
  | nil => exact h
  | cons l ls ih => exact ih _ (processLine_seenInv _ _ h)

lemma textPhase_seenInv (lines : List String) :
    SeenInv (textPhase lines).items (textPhase lines).seen :=
  foldl_processLine_seenInv lines initState
    ⟨List.nodup_nil, List.nil_subset _⟩

lemma processRow_shape (st : PState) (row : List (Option String)) (st' : PState)
    (h : processRow st row = some st') :
    (st'.items = st.items ∧ st'.seen = st.seen) ∨
    ∃ num d c s, num ∉ st.seen ∧
      st'.items = st.items ++ [commitOf num d c s] ∧
      st'.seen = st.seen ++ [num] := by
  unfold processRow at h
  cases row with
  | nil =>
    injection h with h
    exact Or.inl ⟨by rw [← h], by rw [← h]⟩
  | cons c0 rest =>
    dsimp only at h
    split at h
    · injection h with h
      exact Or.inl ⟨by rw [← h], by rw [← h]⟩
    · cases hpn : parseNumPrefix (stripL (c0.getD "").data) with
      | none =>
        rw [hpn] at h
        injection h with h
        exact Or.inl ⟨by rw [← h], by rw [← h]⟩
      | some pr =>
        obtain ⟨g, restNum⟩ := pr
        rw [hpn] at h
        dsimp only at h
        split at h
        · injection h with h
          exact Or.inl ⟨by rw [← h], by rw [← h]⟩
        · cases hf : tableRowFields (rest.head?.getD none) (rest.drop 1) with
          | none => rw [hf] at h; cases h
          | some dcs =>
            obtain ⟨d, c, s⟩ := dcs
            rw [hf] at h
            dsimp only at h
            split at h
            · injection h with h
              exact Or.inl ⟨by rw [← h], by rw [← h]⟩
            · injection h with h
              refine Or.inr ⟨stripL (c0.getD "").data, d, c, s, by assumption, ?_, ?_⟩
              · rw [← h]
              · rw [← h]

lemma processRow_seenInv (st : PState) (row : List (Option String)) (st' : PState)
    (h : processRow st row = some st') (hi : SeenInv st.items st.seen) :
    SeenInv st'.items st'.seen := by
  rcases processRow_shape st row st' h with ⟨h1, h2⟩ | ⟨num, d, c, s, hnum, h1, h2⟩
  · rw [h1, h2]; exact hi
  · rw [h1, h2]; exact seenInv_commit _ _ _ _ _ _ hi hnum

lemma processRow_items_grow (st : PState) (row : List (Option String)) (st' : PState)
    (h : processRow st row = some st') : st.items <+: st'.items := by
  rcases processRow_shape st row st' h with ⟨h1, _⟩ | ⟨num, d, c, s, _, h1, _⟩
  · rw [h1]
  · rw [h1]; exact List.prefix_append _ _

lemma tablePhase_seenInv (rows : List (List (Option String))) (st st' : PState)
    (h : tablePhase st rows = some st') (hi : SeenInv st.items st.seen) :
    SeenInv st'.items st'.seen := by
  induction rows generalizing st with
  | nil =>
    unfold tablePhase at h
    injection h with h
    rw [← h]; exact hi
  | cons r rs ih =>
    unfold tablePhase at h
    cases hr : processRow st r with
    | none => rw [hr] at h; cases h
    | some st1 =>
      rw [hr] at h
      exact ih st1 h (processRow_seenInv st r st1 hr hi)

lemma tablePhase_items_grow (rows : List (List (Option String))) (st st' : PState)
    (h : tablePhase st rows = some st') : st.items <+: st'.items := by
  induction rows generalizing st with
  | nil =>
    unfold tablePhase at h
    injection h with h
    rw [← h]
  | cons r rs ih =>
    unfold tablePhase at h
    cases hr : processRow st r with
    | none => rw [hr] at h; cases h
    | some st1 =>
      rw [hr] at h
      exact (processRow_items_grow st r st1 hr).trans (ih st1 h)

lemma flushEnd_items (st : PState) :
    (flushEnd st).items = st.items ++ flushItemsOf st := by
  unfold flushEnd flushItemsOf
  cases st.curNum with
  | none => simp
  | some c =>
    dsimp only
    split <;> simp

lemma flushEnd_seenInv (st : PState) (hi : SeenInv st.items st.seen) :
    SeenInv (flushEnd st).items (flushEnd st).seen := by
  unfold flushEnd
  cases hc : st.curNum with
  | none => exact hi
  | some c =>
    dsimp only
    split
    · exact hi
    · exact seenInv_commit _ _ _ _ _ _ hi (by assumption)

/-! ## Claim theorems -/

/-- C1: for every input document on which the extraction terminates normally,
each `item_number` appears exactly once in the final item collection produced
by `extract_inspection_table`: every commit is guarded by an `items_seen`
membership test (first detection creates the entry; a detection of an
already-seen number only appends to the existing entry and never duplicates
it), so the item numbers of the output are pairwise distinct. -/
theorem extract_item_numbers_nodup (doc : Document)
    (items : List InspectionItem)
    (h : extract_inspection_table doc = some items) :
    (itemKeys items).Nodup := by
  unfold extract_inspection_table at h
  cases ht : tablePhase (textPhase doc.textLines) doc.tableRows with
  | none => rw [ht] at h; cases h
  | some st' =>
    rw [ht] at h
    injection h with h
    rw [← h]
    exact (flushEnd_seenInv st'
      (tablePhase_seenInv _ _ _ ht (textPhase_seenInv _))).1

theorem extract_item_numbers_nodup_witness :
    extract_inspection_table ⟨["1.01 a OK", "1.02 b: c NOK"], []⟩ =
      some [⟨"1.01", "a", none, "OK"⟩, ⟨"1.02", "b", some "c", "NOK"⟩] ∧
    (itemKeys [⟨"1.01", "a", none, "OK"⟩,
               ⟨"1.02", "b", some "c", "NOK"⟩]).Nodup :=
  ⟨by decide,
   extract_item_numbers_nodup ⟨["1.01 a OK", "1.02 b: c NOK"], []⟩ _ (by decide)⟩

/-- C2 counterexample: the end-of-input flush runs *after* the table pass
(lines 235-243 follow lines 174-233), so the item `1.01` — first seen in the
text pass and still open when the text input ends — is committed after the
table-recovered item `2.01`, refuting the claimed first-seen ordering.  (The
flushed item also picks up the `status` local leaked by the table row.) -/
theorem extract_first_seen_order_cex :
    extract_inspection_table
        ⟨["1.01 alpha"], [[some "2.01", some "beta OK"]]⟩ =
      some [⟨"2.01", "beta", none, "OK"⟩, ⟨"1.01", "alpha", none, "OK"⟩] := by
  decide

/-- C2 amended: the final collection is in commit order — the items committed
during the text pass form a prefix of the items after the table pass, and the
whole output is those items followed by the end-of-input flush (which runs
after the table pass, so a still-open text item lands *after* all
table-recovered items). -/
theorem extract_commit_order (doc : Document) (st' : PState)
    (h : tablePhase (textPhase doc.textLines) doc.tableRows = some st') :
    (textPhase doc.textLines).items <+: st'.items ∧
    extract_inspection_table doc = some (st'.items ++ flushItemsOf st') := by
  refine ⟨tablePhase_items_grow _ _ _ h, ?_⟩
  unfold extract_inspection_table
  rw [h]
  dsimp only
  rw [flushEnd_items]

theorem extract_commit_order_witness :
    tablePhase (textPhase ["1.01 alpha"]) [[some "2.01", some "beta OK"]] =
      some ⟨[⟨"2.01", "beta", none, "OK"⟩], [['2','.','0','1']],
            some ['1','.','0','1'], ['a','l','p','h','a'], none,
            some ['O','K']⟩ ∧
    ((textPhase ["1.01 alpha"]).items <+:
        [InspectionItem.mk "2.01" "beta" none "OK"] ∧
      extract_inspection_table ⟨["1.01 alpha"], [[some "2.01", some "beta OK"]]⟩ =
        some ([⟨"2.01", "beta", none, "OK"⟩] ++
          flushItemsOf ⟨[⟨"2.01", "beta", none, "OK"⟩], [['2','.','0','1']],
            some ['1','.','0','1'], ['a','l','p','h','a'], none,
            some ['O','K']⟩)) :=
  ⟨by decide,
   extract_commit_order ⟨["1.01 alpha"], [[some "2.01", some "beta OK"]]⟩
     ⟨[⟨"2.01", "beta", none, "OK"⟩], [['2','.','0','1']],
      some ['1','.','0','1'], ['a','l','p','h','a'], none, some ['O','K']⟩
     (by decide)⟩

/-- C3: evaluation at the claimed scenario.  The text pass commits only
`1.01`; the table row `["1.02", "Check bolt: loose NOK"]` is committed with
`description = "Check bolt"` but `comment = "loose N"` and `status = ""`,
not the claimed `comment = "loose"`, `status = "NOK"`: the comment loop
(lines 201-205) tries `"OK"` before `"NOK"` and so strips the wrong token,
and the unconditional `status = ""` on line 208 then discards the extracted
status before the row is committed. -/
theorem table_row_colon_status_eval :
    extract_inspection_table
        ⟨["1.01 Intro OK"], [[some "1.02", some "Check bolt: loose NOK"]]⟩ =
      some [⟨"1.01", "Intro", none, "OK"⟩,
            ⟨"1.02", "Check bolt", some "loose N", ""⟩] := by
  decide

/-- C4: the continuation merge.  For the two-line text input
`["1.01 Check torque", "continues on next line OK"]` the trailing status
token of the continuation line is stripped and recorded for the open item,
the remaining text is appended to the open description, and the end-of-input
flush commits `1.01` with description
`"Check torque continues on next line"` and status `"OK"`. -/
theorem continuation_merge_eval :
    extract_inspection_table
        ⟨["1.01 Check torque", "continues on next line OK"], []⟩ =
      some [⟨"1.01", "Check torque continues on next line", none, "OK"⟩] := by
  decide

/-- C5 counterexample: in the table pass the `endswith` loop tries `"OK"`
first, so the row `["1.02", "Check valve NOT OK"]` is committed with status
`"OK"` and description `"Check valve NOT"` — not, as claimed, status
`"NOT OK"`. -/
theorem endswith_longest_match_cex :
    extract_inspection_table ⟨[], [[some "1.02", some "Check valve NOT OK"]]⟩ =
      some [⟨"1.02", "Check valve NOT", none, "OK"⟩] := by
  decide

/-- C5 amended: the `endswith`-based status extraction (lines 124-130 and
207-214) scans the tokens in the fixed source order
`OK, NOT OK, NOK, N/A, Not Applicable` — not in descending length order — so
on every fragment ending in `"NOT OK"` it extracts status `"OK"` and leaves
the `"NOT"` behind in the stripped text. -/
theorem endswith_loop_prefers_ok (t : Str)
    (h : List.isSuffixOf ['N','O','T',' ','O','K'] t = true) :
    stripStatusEnd t = (stripL (t.take (t.length - 2)), some ['O','K']) := by
  have hsuf : ['N','O','T',' ','O','K'] <:+ t := by
    rwa [List.isSuffixOf_iff_suffix] at h
  have hok : (['O','K'] : Str) <:+ t :=
    List.IsSuffix.trans ⟨['N','O','T',' '], rfl⟩ hsuf
  have hokb : List.isSuffixOf ['O','K'] t = true := by
    rwa [List.isSuffixOf_iff_suffix]
  unfold stripStatusEnd statusTokens
  simp only [List.find?, hokb]
  congr 1

theorem endswith_loop_prefers_ok_witness :
    List.isSuffixOf ['N','O','T',' ','O','K'] "Check valve NOT OK".data = true ∧
    stripStatusEnd "Check valve NOT OK".data =
      (stripL ("Check valve NOT OK".data.take
        ("Check valve NOT OK".data.length - 2)), some ['O','K']) :=
  ⟨by decide, endswith_loop_prefers_ok "Check valve NOT OK".data (by decide)⟩

/-- C6: the text pass never raises — any list of text lines yields a result —
but the table pass does: a row with a matching first cell and a `None` second
cell reaches `description.endswith(...)` with `description = None` and raises
`AttributeError` (modelled as `none`), contradicting the claimed total
absence of exceptions. -/
theorem extraction_exception_behaviour :
    (∀ lines : List String, ∃ items,
      extract_inspection_table ⟨lines, []⟩ = some items) ∧
    extract_inspection_table ⟨[], [[some "1.02", none]]⟩ = none := by
  constructor
  · intro lines
    exact ⟨(flushEnd (textPhase lines)).items, rfl⟩
  · decide

/-- C7: `calculate_compliance_ratio` returns `(ok_count, total_with_status,
ratio)` where `total_with_status` counts exactly the items with a non-empty
status, `ok_count` counts exactly the items whose status is `"OK"`, and the
ratio is `100 * ok / total` when `total > 0` and exactly `0` when
`total = 0` (no division error; exact rational arithmetic stands in for
Python float division). -/
theorem calculate_compliance_ratio_spec (items : List InspectionItem) :
    (calculate_compliance_ratio items).2.1 =
      (items.filter (fun it => !it.status.data.isEmpty)).length ∧
    (calculate_compliance_ratio items).1 =
      (items.filter (fun it => it.status == "OK")).length ∧
    (0 < (calculate_compliance_ratio items).2.1 →
      (calculate_compliance_ratio items).2.2 =
        100 * ((calculate_compliance_ratio items).1 : ℚ) /
          ((calculate_compliance_ratio items).2.1 : ℚ)) ∧
    ((calculate_compliance_ratio items).2.1 = 0 →
      (calculate_compliance_ratio items).2.2 = 0) := by
  unfold calculate_compliance_ratio
  by_cases he : items.isEmpty
  · rw [List.isEmpty_iff] at he
    subst he
    refine ⟨rfl, rfl, ?_, fun _ => rfl⟩
    intro h
    exact absurd h (by simp)
  · rw [if_neg he]
    dsimp only
    refine ⟨rfl, ?_, ?_, ?_⟩
    · rw [List.filter_filter]
      refine congrArg List.length (List.filter_congr ?_)
      intro x _
      cases hx : (x.status == "OK") with
      | false => simp [hx]
      | true =>
        have : x.status = "OK" := by rwa [beq_iff_eq] at hx
        simp [this]
    · intro h
      rw [if_pos h, mul_comm, ← mul_div_assoc]
    · intro h
      rw [if_neg (by omega)]

theorem calculate_compliance_ratio_spec_witness :
    0 < (calculate_compliance_ratio
      [⟨"1.01", "d", none, "OK"⟩, ⟨"2", "Sec", none, ""⟩]).2.1 ∧
    (calculate_compliance_ratio
      [⟨"1.01", "d", none, "OK"⟩, ⟨"2", "Sec", none, ""⟩]).2.2 =
      100 * ((calculate_compliance_ratio
        [⟨"1.01", "d", none, "OK"⟩, ⟨"2", "Sec", none, ""⟩]).1 : ℚ) /
        ((calculate_compliance_ratio
          [⟨"1.01", "d", none, "OK"⟩, ⟨"2", "Sec", none, ""⟩]).2.1 : ℚ) :=
  ⟨by decide,
   (calculate_compliance_ratio_spec
     [⟨"1.01", "d", none, "OK"⟩, ⟨"2", "Sec", none, ""⟩]).2.2.1 (by decide)⟩

/-- C8 counterexample: status-stripping is not idempotent.  A first
application to `"OK OK"` yields remaining text `"OK"` with status `"OK"`, but
re-applying the step to `"OK"` strips again and returns `("", "OK")`, not
`("OK", None)` as the claim requires. -/
theorem strip_status_not_idempotent_cex :
    stripStatusEnd ['O','K',' ','O','K'] = (['O','K'], some ['O','K']) ∧
    stripStatusEnd ['O','K'] = ([], some ['O','K']) ∧
    stripStatusEnd ['O','K'] ≠ (['O','K'], none) := by
  refine ⟨by decide, by decide, by decide⟩

/-- C8 amended: status-stripping is idempotent on fragments whose stripped
remainder does not itself end in a status token: if a first application
yields remaining text `t'` and no token is a suffix of `t'`, the second
application returns `(t', none)` unchanged. -/
theorem strip_status_idempotent_on_clean (t t' : Str) (s : Option Str)
    (h : stripStatusEnd t = (t', s))
    (hclean : ∀ p ∈ statusTokens, p.isSuffixOf t' = false) :
    stripStatusEnd t' = (t', none) := by
  unfold stripStatusEnd
  have hnone : statusTokens.find? (fun p => p.isSuffixOf t') = none := by
    rw [List.find?_eq_none]
    intro x hx
    rw [hclean x hx]
    simp
  rw [hnone]

theorem strip_status_idempotent_on_clean_witness :
    stripStatusEnd "abc OK".data = ("abc".data, some ['O','K']) ∧
    (∀ p ∈ statusTokens, p.isSuffixOf "abc".data = false) ∧
    stripStatusEnd "abc".data = ("abc".data, none) :=
  ⟨by decide, by decide,
   strip_status_idempotent_on_clean "abc OK".data "abc".data (some ['O','K'])
     (by decide) (by decide)⟩

/-- C9: for every first-page text, the mapping returned by
`get_header_informations` has exactly the eight keys `turbine_number,
service_order, pad_no, turbine_type, start_date, customer_address,
date_and_time_of_receipt, reason_for_call_out` — the `end_date` key claimed
by the specification is absent: both source functions compute the local
`end_date` from `r'End Date:\s*([\d\.]+)'` but never add it to the returned
dict. -/
theorem header_informations_keys (t : String) :
    (get_header_informations t).map Prod.fst =
      ["turbine_number", "service_order", "pad_no", "turbine_type",
       "start_date", "customer_address", "date_and_time_of_receipt",
       "reason_for_call_out"] ∧
    "end_date" ∉ (get_header_informations t).map Prod.fst := by
  have h1 : (get_header_informations t).map Prod.fst =
      ["turbine_number", "service_order", "pad_no", "turbine_type",
       "start_date", "customer_address", "date_and_time_of_receipt",
       "reason_for_call_out"] := rfl
  refine ⟨h1, ?_⟩
  rw [h1]
  decide

lemma isWs_eq_false_of_isDigit (c : Char) (h : c.isDigit = true) :
    isWs c = false := by
  by_contra hw
  rw [Bool.not_eq_false] at hw
  unfold isWs at hw
  simp only [Bool.or_eq_true, decide_eq_true_eq] at hw
  rcases hw with ((((h' | h') | h') | h') | h') | h' <;> subst h' <;>
    exact absurd h (by decide)

lemma parseNumPrefix_digit_head (l : Str) (x : Str × Str)
    (h : parseNumPrefix l = some x) :
    ∃ c cs, l = c :: cs ∧ c.isDigit = true := by
  unfold parseNumPrefix at h
  cases l with
  | nil => simp at h
  | cons c cs =>
    refine ⟨c, cs, rfl, ?_⟩
    by_contra hc
    rw [Bool.not_eq_true] at hc
    rw [List.takeWhile_cons, hc] at h
    simp at h

lemma stripL_not_empty_of_parse (l : Str) (x : Str × Str × Option Str)
    (h : parseItemLine l = some x) : (stripL l).isEmpty = false := by
  have hpn : ∃ y, parseNumPrefix l = some y := by
    unfold parseItemLine at h
    cases hp : parseNumPrefix l with
    | none => rw [hp] at h; cases h
    | some y => exact ⟨y, rfl⟩
  obtain ⟨y, hy⟩ := hpn
  obtain ⟨c, cs, rfl, hd⟩ := parseNumPrefix_digit_head l y hy
  have hcw := isWs_eq_false_of_isDigit c hd
  unfold stripL
  rw [List.dropWhile_cons, hcw]
  simp only [Bool.false_eq_true, if_false]
  rw [Bool.eq_false_iff]
  intro htrue
  rw [List.isEmpty_iff, List.reverse_eq_nil_iff, List.dropWhile_eq_nil_iff]
    at htrue
  have hfc := htrue c (by simp)
  rw [hcw] at hfc
  cases hfc

lemma matchesInspStart_of_parseNumPrefix (l : Str) (x : Str × Str)
    (h : parseNumPrefix l = some x) : matchesInspStart l = true := by
  unfold parseNumPrefix at h
  unfold matchesInspStart
  dsimp only at h ⊢
  cases hds : (l.takeWhile Char.isDigit).isEmpty with
  | true => rw [hds] at h; simp at h
  | false =>
    rw [if_neg (by rw [hds]; decide)] at h
    simp only [Bool.not_false, Bool.true_and]
    split at h
    · rename_i r2 heq
      split at h
      · cases h
      · rename_i hds2
        simp only [Bool.not_eq_true] at hds2
        simp [hds2]
    · cases h

lemma parseItemLine_eq_none_of_not_start (l : Str)
    (h : matchesInspStart l = false) : parseItemLine l = none := by
  cases hp : parseItemLine l with
  | none => rfl
  | some x =>
    exfalso
    have hpn : ∃ y, parseNumPrefix l = some y := by
      unfold parseItemLine at hp
      cases hq : parseNumPrefix l with
      | none => rw [hq] at hp; cases hp
      | some y => exact ⟨y, rfl⟩
    obtain ⟨y, hy⟩ := hpn
    rw [matchesInspStart_of_parseNumPrefix l y hy] at h
    cases h

lemma processLine_nonItem (st : PState) (l : Str)
    (h : matchesInspStart l = false) :
    (processLine st l).items = st.items ∧
    (processLine st l).seen = st.seen ∧
    (processLine st l).curNum = st.curNum := by
  unfold processLine
  split
  · exact ⟨rfl, rfl, rfl⟩
  split
  · exact ⟨rfl, rfl, rfl⟩
  split
  · exact appendContinuation_fields st l
  · rw [parseItemLine_eq_none_of_not_start l h]
    exact ⟨rfl, rfl, rfl⟩

lemma foldl_processLine_nonItem (ls : List Str) (st : PState)
    (h : ∀ l ∈ ls, matchesInspStart l = false) :
    (ls.foldl processLine st).items = st.items ∧
    (ls.foldl processLine st).seen = st.seen ∧
    (ls.foldl processLine st).curNum = st.curNum := by
  induction ls generalizing st with
  | nil => exact ⟨rfl, rfl, rfl⟩
  | cons l ls ih =>
    have h1 := processLine_nonItem st l (h l (by simp))
    have h2 := ih (processLine st l) (fun l' hl' => h l' (by simp [hl']))
    exact ⟨h2.1.trans h1.1, h2.2.1.trans h1.2.1, h2.2.2.trans h1.2.2⟩

lemma commitCurrent_of_none (st : PState) (h : st.curNum = none) :
    commitCurrent st = st := by
  unfold commitCurrent
  rw [h]

lemma upperL_tok_not_empty (tok : Str) (h : tok ∈ statusTokens) :
    (upperL tok).isEmpty = false := by
  simp only [statusTokens, List.mem_cons, List.mem_singleton,
    List.not_mem_nil, or_false] at h
  rcases h with h | h | h | h | h <;> subst h <;> decide

lemma processNewItemFields_some_tok (g2 tok : Str)
    (hne : (upperL tok).isEmpty = false) :
    (processNewItemFields g2 (some tok)).2.2 = upperL tok := by
  have hcond : ¬((upperL tok).isEmpty = true) := by rw [hne]; decide
  unfold processNewItemFields
  dsimp only
  rw [if_neg hcond]
  dsimp only
  split
  · split
    · rfl
    · rfl
  · rfl

/-- C10: when an item's opening line carries an inline status token, the item
is committed immediately at open time, with fields computed from the opening
line only; subsequent continuation lines (lines not starting with a
`\d+.\d+` number) mutate only the transient draft and never change the
committed items, and the end-of-input flush does not commit the draft again
because its number is already in `items_seen`. -/
theorem inline_status_commits_immediately
    (st : PState) (line : Str) (ls : List Str) (num g2 tok : Str)
    (hcur : st.curNum = none)
    (hsif : isInfixL "Service Inspection Form".data line = false)
    (hdms : isInfixL "0. DMS:".data line = false)
    (hparse : parseItemLine line = some (num, g2, some tok))
    (htok : tok ∈ statusTokens)
    (hnum : num ∉ st.seen)
    (hcont : ∀ l ∈ ls, matchesInspStart l = false) :
    (∃ d c, (processLine st line).items =
        st.items ++ [⟨mkS num, d, c, mkS (upperL tok)⟩]) ∧
    (ls.foldl processLine (processLine st line)).items =
      (processLine st line).items ∧
    (flushEnd (ls.foldl processLine (processLine st line))).items =
      (ls.foldl processLine (processLine st line)).items := by
  have hblank := stripL_not_empty_of_parse line _ hparse
  have hneU := upperL_tok_not_empty tok htok
  -- the opening line takes the new-item branch
  have hstep : processLine st line = openNewItem st num g2 (some tok) := by
    unfold processLine
    rw [if_neg (by rw [hblank]; decide)]
    rw [if_neg (by rw [hsif, hdms]; decide)]
    rw [if_neg (by rw [hcur]; simp)]
    rw [hparse, commitCurrent_of_none st hcur]
  -- the immediate commit
  obtain ⟨⟨d, c, s⟩, hp⟩ : ∃ r, processNewItemFields g2 (some tok) = r :=
    ⟨_, rfl⟩
  have hs : s = upperL tok := by
    have h2 := processNewItemFields_some_tok g2 tok hneU
    rw [hp] at h2
    exact h2
  subst hs
  have hopen : processLine st line =
      { items := st.items ++ [commitOf num d c (upperL tok)],
        seen := st.seen ++ [num], curNum := some num, curDesc := d,
        curComment := c, statusVar := some (upperL tok) } := by
    rw [hstep]
    unfold openNewItem
    rw [hp]
    dsimp only
    rw [if_neg hnum]
    rw [if_pos (by rw [hneU]; decide)]
  have hfold := foldl_processLine_nonItem ls (processLine st line) hcont
  refine ⟨⟨mkS d, c.map mkS, by rw [hopen]; rfl⟩, hfold.1, ?_⟩
  have hc2 : (ls.foldl processLine (processLine st line)).curNum = some num := by
    rw [hfold.2.2, hopen]
  have hseen2 : (ls.foldl processLine (processLine st line)).seen =
      st.seen ++ [num] := by
    rw [hfold.2.1, hopen]
  unfold flushEnd
  rw [hc2]
  dsimp only
  rw [if_pos (by rw [hseen2]; exact List.mem_append.mpr (Or.inr (by simp)))]

theorem inline_status_commits_immediately_witness :
    (∃ d c, (processLine initState "1.01 Check torque OK".data).items =
        initState.items ++ [⟨mkS "1.01".data, d, c, mkS (upperL "OK".data)⟩]) ∧
    (["more detail".data].foldl processLine
        (processLine initState "1.01 Check torque OK".data)).items =
      (processLine initState "1.01 Check torque OK".data).items ∧
    (flushEnd (["more detail".data].foldl processLine
        (processLine initState "1.01 Check torque OK".data))).items =
      (["more detail".data].foldl processLine
        (processLine initState "1.01 Check torque OK".data)).items :=
  inline_status_commits_immediately initState "1.01 Check torque OK".data
    ["more detail".data] "1.01".data "Check torque".data "OK".data
    rfl (by decide) (by decide) (by decide) (by decide) (by decide) (by decide)
